import Mathlib

/-!
# Verification of the MovieRecommender engine

Shallow embedding of `recommender.py` (class `MovieRecommender`).

Modelling conventions:
- A movie record is a Python dict with optional fields; each field the code
  reads via `movie.get(key, default)` is an `Option` here, so a missing key is
  `none`.  The ephemeral `"score"` key the engine adds to copies is the
  `score : Option ℚ` field (catalog records have `score = none`).
- Python floats are modelled as exact rationals `ℚ` (the predicates only
  compare against exactly representable constants, and no claim depends on
  float rounding error).  `round(x, 2)` is modelled as exact rational rounding
  of `100*x`; Python's round-half-to-even on binary floats differs on exact
  half-way values, which no claim exercises.
- Randomness is passed in explicitly: each filtering stage receives a stream
  `us : ℕ → ℚ` of uniform draws (indexed by the position of the scored movie),
  and `random.sample` is an explicit parameter
  `sample : List Movie → ℕ → List Movie`; theorems that need it assume only
  what `random.sample` guarantees (a result of the requested length whose
  elements come from the pool).
- File state (catalog file, history file, ratings file) is the `RecState`
  record; `load`/`save` round-trips are identity on it.
- A Python exception is modelled by `Except`/`Option`: `.error s` means the
  call raised, leaving the persistent state as `s` at the moment of the raise.
-/

namespace MovieRecommender

/-- A movie record (a JSON object / Python dict).  Fields the code reads with
`movie.get(key, default)` are `Option`s: `none` models a missing key.  `score`
is the ephemeral key added to scored copies; catalog entries start with
`score = none`. -/
structure Movie where
  title : Option String
  industry : Option String
  genres : List String
  rating : Option ℚ
  popularity : Option ℤ
  year : Option ℤ
  duration_minutes : Option ℤ
  score : Option ℚ
deriving DecidableEq, Repr

/-- A movie record with every key missing; concrete movies are built from it
by record update. -/
def blankMovie : Movie :=
  { title := none, industry := none, genres := [], rating := none,
    popularity := none, year := none, duration_minutes := none, score := none }

/-- A history entry: `{"timestamp", "industry", "genre", "movie_type",
"recommended"}` as written by `_log_history_full`. -/
structure HistoryEntry where
  timestamp : String
  industry : String
  genre : String
  movie_type : Option String
  recommended : List Movie
deriving DecidableEq, Repr

/-- The Python value passed as `stars` to `rate_movie`: an int, a float, or
something non-numeric (for which `stars < 1` raises `TypeError`). -/
inductive StarsVal where
  | int (n : ℤ)
  | float (q : ℚ)
  | nonNum
deriving DecidableEq, Repr

/-- The numeric value of a stars argument, `none` when non-numeric. -/
def StarsVal.val? : StarsVal → Option ℚ
  | .int n => some (n : ℚ)
  | .float q => some q
  | .nonNum => none

/-- A ratings entry `{"title", "stars", "time"}` as written by `rate_movie`. -/
structure RatingEntry where
  title : String
  stars : StarsVal
  time : String
deriving DecidableEq, Repr

/-- The persistent state of the recommender: the in-memory catalog
(`self.movies`, kept in sync with the catalog file), the history file and the
ratings file contents. -/
structure RecState where
  movies : List Movie
  history : List HistoryEntry
  ratings : List RatingEntry
deriving DecidableEq, Repr

/-- Python `str.strip()` on a character list: drop leading and trailing
whitespace. -/
def trimChars (l : List Char) : List Char :=
  ((l.dropWhile Char.isWhitespace).reverse.dropWhile Char.isWhitespace).reverse

/-- `text.strip().lower()` for an actual string, modelled on the character
list (ASCII case folding, as in Lean's `Char.toLower`; the claims only
exercise ASCII data). -/
def normStr (s : String) : String :=
  String.mk ((trimChars s.data).map Char.toLower)

/-- `_normalize_string`: non-string input (modelled by `none`) normalizes to
`""`; strings are trimmed and lowercased. -/
def _normalize_string (text : Option String) : String :=
  match text with
  | none => ""
  | some s => normStr s

/-- Python `s.startswith(pre)`, on the character lists. -/
def startsWithChars (s pre : String) : Bool :=
  pre.data.isPrefixOf s.data

/-- Python truthiness of the `movie_type` argument (`if movie_type and ...`):
`None` and `""` are falsy, every other string is truthy. -/
def movieTypeTruthy (movie_type : Option String) : Bool :=
  match movie_type with
  | none => false
  | some s => s ≠ ""

/-- `_matches_type`: the movie-type classifier.  Reads
`rating`/`popularity`/`year`/`duration_minutes` with the code's defaults
(7.0, 5, 2010, 120) and dispatches on the normalized label. -/
def _matches_type (movie : Movie) (movie_type : Option String) : Bool :=
  let mt := _normalize_string movie_type
  let rating := movie.rating.getD 7
  let popularity := movie.popularity.getD 5
  let year := movie.year.getD 2010
  let duration := movie.duration_minutes.getD 120
  if mt = "top rated" then decide (rating ≥ 8)
  else if mt = "popular" then decide (popularity ≥ 8)
  else if mt = "underrated" then decide (rating ≥ 7) && decide (popularity ≤ 6)
  else if mt = "new release" then decide (year ≥ 2020)
  else if mt = "classic" then decide (year ≤ 2005)
  else if startsWithChars mt "short movie" then decide (duration < 120)
  else true

/-- `round(x, 2)` on exact rationals. -/
def round2 (q : ℚ) : ℚ :=
  (round (q * 100) : ℚ) / 100

/-- `_score_movie`: weighted score `0.6*rating + 0.4*popularity` plus the
uniform draw `u` (the `random.uniform(0, 1)` bonus), rounded to 2 places. -/
def _score_movie (movie : Movie) (u : ℚ) : ℚ :=
  let rating := movie.rating.getD 7
  let popularity := movie.popularity.getD 5
  let base := (6 / 10 : ℚ) * rating + (4 / 10 : ℚ) * (popularity : ℚ)
  round2 (base + u)

/-- `movie.copy()` followed by `movie_copy["score"] = s` (also `{**m,
"score": s}`): a copy of the record with the score key set. -/
def scoredCopy (movie : Movie) (s : ℚ) : Movie :=
  { movie with score := some s }

/-- The per-movie test of the `_filter_movies` loop body: the three `continue`
guards (industry, genres, movie type), in the code's order.  `industryN` and
`gs` are the already-normalized constraint values. -/
def _filter_keep (industryN : String) (gs : List String) (movie_type : Option String)
    (movie : Movie) : Bool :=
  let m_ind := normStr (movie.industry.getD "")
  let m_genres := movie.genres.map normStr
  if industryN ≠ "" && industryN ≠ m_ind then false
  else if !gs.isEmpty && !(gs.all (fun g => m_genres.contains g)) then false
  else if movieTypeTruthy movie_type && !(_matches_type movie movie_type) then false
  else true

/-- The `for movie in self.movies` loop of `_filter_movies`, with `i` the
index of the current movie in the catalog (used to index the stream of
uniform draws: each kept movie consumes a fresh draw). -/
def _filter_go (industryN : String) (gs : List String) (movie_type : Option String)
    (us : ℕ → ℚ) : ℕ → List Movie → List Movie
  | _, [] => []
  | i, movie :: rest =>
    if _filter_keep industryN gs movie_type movie then
      scoredCopy movie (_score_movie movie (us i)) ::
        _filter_go industryN gs movie_type us (i + 1) rest
    else
      _filter_go industryN gs movie_type us (i + 1) rest

/-- `_filter_movies(*genres, industry=..., movie_type=...)`: normalizes the
constraint industry and the genres, then keeps the movies passing all guards,
each as a scored copy. -/
def _filter_movies (movies : List Movie) (genres : List String) (industry : String)
    (movie_type : Option String) (us : ℕ → ℚ) : List Movie :=
  _filter_go (normStr industry) (genres.map normStr) movie_type us 0 movies

/-- The body of `_recursive_genre_search` as structural recursion on the list
suffix: the Python function walks indices `index, index+1, ...` of the full
list, which is the same as structurally recursing over `movies.drop index`. -/
def recSearchGo (target_genre : String) : List Movie → List Movie
  | [] => []
  | movie :: tail =>
    let rest := recSearchGo target_genre tail
    let genres := movie.genres.map normStr
    if normStr target_genre ∈ genres then movie :: rest else rest

/-- `_recursive_genre_search(movies, target_genre, index)`: the fallback
genre-only recursive scan.  Returns the original records (no copies). -/
def _recursive_genre_search (movies : List Movie) (target_genre : String)
    (index : ℕ := 0) : List Movie :=
  recSearchGo target_genre (movies.drop index)

/-- The sort key `m.get("score", 0)`. -/
def sortKey (m : Movie) : ℚ :=
  m.score.getD 0

/-- Insert a movie into a descending-sorted list, before the first strictly
smaller key (so an earlier element stays in front of later equal keys:
Python's `list.sort` is stable). -/
def insertDesc (m : Movie) : List Movie → List Movie
  | [] => [m]
  | x :: xs => if sortKey m ≥ sortKey x then m :: x :: xs else x :: insertDesc m xs

/-- `candidates.sort(key=lambda m: m.get("score", 0), reverse=True)`: stable
sort by score, descending. -/
def sortDesc : List Movie → List Movie
  | [] => []
  | x :: xs => insertDesc x (sortDesc xs)

/-- The selection step of `recommend`: `pool = candidates[:10]`, then
`random.sample(pool, top_n)` when the pool is larger than `top_n`, else the
whole pool. -/
def selectTop (sample : List Movie → ℕ → List Movie) (top_n : ℕ)
    (candidates : List Movie) : List Movie :=
  let pool := (sortDesc candidates).take 10
  if pool.length > top_n then sample pool top_n else pool

/-- Stage 3 of the cascade: score the recursive-search results,
`[{**m, "score": ...} for m in rec]`, one fresh draw per movie. -/
def stage3_scored (movies : List Movie) (target : String) (us : ℕ → ℚ) : List Movie :=
  ((_recursive_genre_search movies target).enum).map
    (fun p => scoredCopy p.2 (_score_movie p.2 (us p.1)))

/-- Stage 4 of the cascade: score the whole catalog. -/
def stage4_scored (movies : List Movie) (us : ℕ → ℚ) : List Movie :=
  (movies.enum).map (fun p => scoredCopy p.2 (_score_movie p.2 (us p.1)))

/-- The popularity-feedback update applied to one catalog record:
`movie["popularity"] = movie.get("popularity", 5) + 1` when
`movie.get("title")` is in the selected-title set, else unchanged. -/
def popUpdate (titles : List String) (movie : Movie) : Movie :=
  match movie.title with
  | some ti =>
    if titles.contains ti then
      { movie with popularity := some (movie.popularity.getD 5 + 1) }
    else movie
  | none => movie

/-- `_log_history_full`: appends the history entry (and saves the history
file), then builds `titles_selected = {m["title"] for m in selected_movies}` —
which raises `KeyError` if a selected movie has no title, AFTER the history
was already written — then applies the popularity feedback to the catalog and
saves it.  `.error s` models the raise with persistent state `s`. -/
def _log_history_full (st : RecState) (industry genre : String)
    (movie_type : Option String) (selected_movies : List Movie) (t : String) :
    Except RecState RecState :=
  let entry : HistoryEntry :=
    { timestamp := t, industry := industry, genre := genre,
      movie_type := movie_type, recommended := selected_movies }
  let st1 : RecState := { st with history := st.history ++ [entry] }
  match selected_movies.mapM Movie.title with
  | none => .error st1
  | some titles_selected =>
    .ok { st1 with movies := st1.movies.map (popUpdate titles_selected) }

/-- `if not candidates: candidates = b`: keep `a` when non-empty, else fall
back to `b`. -/
def fallback (a b : List Movie) : List Movie :=
  if a.isEmpty then b else a

/-- Steps 1–4 of `recommend`: the four-stage fallback, each stage tried only
when the previous ones were empty (`if not candidates`). -/
def cascade (movies : List Movie) (norm_ind norm_gen : String)
    (movie_type : Option String) (us1 us2 us3 us4 : ℕ → ℚ) : List Movie :=
  fallback (fallback (fallback
    (_filter_movies movies [norm_gen] norm_ind movie_type us1)
    (_filter_movies movies [norm_gen] norm_ind none us2))
    (stage3_scored movies norm_gen us3))
    (stage4_scored movies us4)

/-- The tail of `recommend`: log the selection, then return it together with
the updated state (or propagate the raise). -/
def recommendFinish (st : RecState) (norm_ind norm_gen : String)
    (movie_type : Option String) (selected : List Movie) (t : String) :
    Except RecState (List Movie × RecState) :=
  match _log_history_full st norm_ind norm_gen movie_type selected t with
  | .error s => .error s
  | .ok s => .ok (selected, s)

/-- `recommend(industry, genre, movie_type, top_n)`: the four-stage fallback
cascade, sort, pool/sample selection, history + popularity bookkeeping.
`us1..us4` are the uniform-draw streams consumed by the four stages, `sample`
is `random.sample`, `t` the timestamp.  Returns the selected list and the new
state, or `.error` when the call raises. -/
def recommend (st : RecState) (industry genre movie_type : Option String)
    (top_n : ℕ) (us1 us2 us3 us4 : ℕ → ℚ) (sample : List Movie → ℕ → List Movie)
    (t : String) : Except RecState (List Movie × RecState) :=
  recommendFinish st (_normalize_string industry) (_normalize_string genre) movie_type
    (selectTop sample top_n (cascade st.movies (_normalize_string industry)
      (_normalize_string genre) movie_type us1 us2 us3 us4)) t

/-- `rate_movie(title, stars)`: `stars < 1 or stars > 5` (raises `TypeError`
for non-numeric stars) gates the failure return; on success `title.strip()`
(raises for a non-string title) and the entry is appended to the ratings
file.  `none` models a raise; `some (ok, ratings)` the normal return. -/
def rate_movie (title : Option String) (stars : StarsVal)
    (ratings : List RatingEntry) (t : String) : Option (Bool × List RatingEntry) :=
  match stars.val? with
  | none => none
  | some v =>
    if v < 1 ∨ v > 5 then some (false, ratings)
    else
      match title with
      | none => none
      | some s =>
        some (true, ratings ++
          [{ title := String.mk (trimChars s.data), stars := stars, time := t }])

/-- The guarantees of `random.sample(pool, k)` that the theorems rely on: when
`k ≤ len(pool)` it returns `k` elements, all drawn from the pool. -/
def SampleOK (sample : List Movie → ℕ → List Movie) : Prop :=
  ∀ pool k, k ≤ pool.length →
    (sample pool k).length = k ∧ ∀ x ∈ sample pool k, x ∈ pool

/-- A concrete admissible sampler (take the first `k`): one of the possible
outcomes of `random.sample`, used to instantiate witnesses. -/
def sampleTake (pool : List Movie) (k : ℕ) : List Movie :=
  pool.take k

/-- The history entry `_log_history_full` writes. -/
def mkEntry (ind gen : String) (mt : Option String) (sel : List Movie) (t : String) :
    HistoryEntry :=
  { timestamp := t, industry := ind, genre := gen, movie_type := mt, recommended := sel }

/-- The returned selection of a `recommend` call, `none` when the call
raised. -/
def okList : Except RecState (List Movie × RecState) → Option (List Movie)
  | .ok p => some p.1
  | .error _ => none

/-- Modelled from the spec ("behavior is equivalent to a genre-containment
filter over the full list, in original catalog order"): the iterative,
order-preserving linear filter the recursive stage-3 scan is claimed
equivalent to. -/
def genreLinearFilter (movies : List Movie) (target : String) : List Movie :=
  movies.filter (fun m => decide (normStr target ∈ m.genres.map normStr))

/-- Modelled from the spec (C9: an empty-normalizing query industry "merely
disables the industry condition inside stages 1–2"): the per-movie filter test
with the industry condition dropped. -/
def keep_no_industry (gs : List String) (movie_type : Option String)
    (movie : Movie) : Bool :=
  let m_genres := movie.genres.map normStr
  if !gs.isEmpty && !(gs.all (fun g => m_genres.contains g)) then false
  else if movieTypeTruthy movie_type && !(_matches_type movie movie_type) then false
  else true

/-- The filtering loop with the industry condition dropped (spec-side). -/
def filter_no_industry_go (gs : List String) (movie_type : Option String)
    (us : ℕ → ℚ) : ℕ → List Movie → List Movie
  | _, [] => []
  | i, movie :: rest =>
    if keep_no_industry gs movie_type movie then
      scoredCopy movie (_score_movie movie (us i)) ::
        filter_no_industry_go gs movie_type us (i + 1) rest
    else
      filter_no_industry_go gs movie_type us (i + 1) rest

/-- `_filter_movies` with the industry condition dropped (spec-side). -/
def _filter_movies_no_industry (movies : List Movie) (genres : List String)
    (movie_type : Option String) (us : ℕ → ℚ) : List Movie :=
  filter_no_industry_go (genres.map normStr) movie_type us 0 movies

/-! ## Concrete fixtures for counterexamples and witnesses -/

/-- A zero stream of uniform draws (each `random.uniform(0,1)` returning 0). -/
def u0 : ℕ → ℚ := fun _ => 0

def mvA : Movie := { blankMovie with title := some "A", genres := ["drama"] }

def mvB : Movie := { blankMovie with title := some "B", genres := ["action"] }

def mvC : Movie := { blankMovie with title := some "C", genres := ["comedy"] }

/-- A 3-movie catalog. -/
def st3 : RecState := { movies := [mvA, mvB, mvC], history := [], ratings := [] }

/-- A movie record with no `"title"` key. -/
def mvNoTitle : Movie := { blankMovie with genres := ["drama"] }

def stNoTitle : RecState := { movies := [mvNoTitle], history := [], ratings := [] }

/-- A movie whose industry is set (for the stage-1 industry counterexample). -/
def mvBolly : Movie :=
  { blankMovie with title := some "D", industry := some "Bollywood", genres := ["drama"] }

def stBolly : RecState := { movies := [mvBolly], history := [], ratings := [] }

/-- A 1-movie catalog whose genre matches nothing (stage-4 witness). -/
def stOne : RecState := { movies := [mvA], history := [], ratings := [] }

/-- An empty catalog. -/
def stEmpty : RecState := { movies := [], history := [], ratings := [] }

/-- The selection of `recommend st3 "" "drama" None 5` (stage 1 keeps only
`mvA`); the score is kept as an unevaluated term. -/
def selA : List Movie := [scoredCopy mvA (_score_movie mvA (u0 0))]

/-- The post-state of that call: `mvA`'s popularity incremented (default 5,
so 6), one history entry holding the pre-increment snapshot. -/
def st3After : RecState :=
  { movies := [{ mvA with popularity := some 6 }, mvB, mvC],
    history := [mkEntry "" "drama" none selA "t0"], ratings := [] }

/-- The selection of `recommend stOne "" "zzz" None 5`: no genre matches, so
stage 4 scores the whole one-movie catalog. -/
def selOne : List Movie := [scoredCopy mvA (_score_movie mvA (u0 0))]

/-- The post-state of that call. -/
def stOneAfter : RecState :=
  { movies := [{ mvA with popularity := some 6 }],
    history := [mkEntry "" "zzz" none selOne "t0"], ratings := [] }

/-- The selection of `recommend stBolly "Bollywood" "drama" None 5` (stage 1
matches on industry and genre). -/
def selBolly : List Movie := [scoredCopy mvBolly (_score_movie mvBolly (u0 0))]

/-- The post-state of that call. -/
def stBollyAfter : RecState :=
  { movies := [{ mvBolly with popularity := some 6 }],
    history := [mkEntry "bollywood" "drama" none selBolly "t0"], ratings := [] }

theorem sampleTake_ok : SampleOK sampleTake := by
  intro pool k hk
  constructor
  · simpa [sampleTake] using hk
  · intro x hx
    exact List.mem_of_mem_take hx

/-! ## Normalization lemmas -/

theorem char_toNat_ofNat (n : ℕ) (h : n.isValidChar) : (Char.ofNat n).toNat = n := by
  rw [Char.ofNat, dif_pos h]
  rfl

theorem char_toNat_inj {c d : Char} (h : c.toNat = d.toNat) : c = d := by
  rw [← Char.ofNat_toNat c, h, Char.ofNat_toNat]

theorem char_isWhitespace_iff (c : Char) :
    c.isWhitespace = true ↔ (c.toNat = 32 ∨ c.toNat = 9 ∨ c.toNat = 13 ∨ c.toNat = 10) := by
  simp only [Char.isWhitespace, Bool.or_eq_true, decide_eq_true_eq]
  constructor
  · rintro (((h | h) | h) | h) <;> subst h <;> simp [Char.toNat]
  · rintro (h | h | h | h)
    · exact Or.inl (Or.inl (Or.inl (char_toNat_inj (h.trans (by rfl)))))
    · exact Or.inl (Or.inl (Or.inr (char_toNat_inj (h.trans (by rfl)))))
    · exact Or.inl (Or.inr (char_toNat_inj (h.trans (by rfl))))
    · exact Or.inr (char_toNat_inj (h.trans (by rfl)))

theorem toLower_toNat_not_upper (c : Char) :
    ¬ ((Char.toLower c).toNat ≥ 65 ∧ (Char.toLower c).toNat ≤ 90) := by
  simp only [Char.toLower]
  by_cases h : c.toNat ≥ 65 ∧ c.toNat ≤ 90
  · rw [if_pos h]
    have hv : (c.toNat + 32).isValidChar := by
      constructor
      omega
    rw [char_toNat_ofNat _ hv]
    omega
  · rw [if_neg h]
    exact h

theorem toLower_toLower (c : Char) : c.toLower.toLower = c.toLower := by
  conv_lhs => rw [Char.toLower]
  rw [if_neg (toLower_toNat_not_upper c)]

theorem toLower_isWhitespace (c : Char) :
    (Char.toLower c).isWhitespace = c.isWhitespace := by
  by_cases h : c.toNat ≥ 65 ∧ c.toNat ≤ 90
  · have h1 : c.isWhitespace = false := by
      rw [← Bool.not_eq_true, char_isWhitespace_iff]
      omega
    have hv : (c.toNat + 32).isValidChar := by
      constructor
      omega
    have h2 : (Char.toLower c).toNat = c.toNat + 32 := by
      simp only [Char.toLower]
      rw [if_pos h, char_toNat_ofNat _ hv]
    have h3 : (Char.toLower c).isWhitespace = false := by
      rw [← Bool.not_eq_true, char_isWhitespace_iff, h2]
      omega
    rw [h1, h3]
  · have h2 : Char.toLower c = c := by
      simp only [Char.toLower]
      rw [if_neg h]
    rw [h2]

theorem dropWhile_dropWhile (p : Char → Bool) (l : List Char) :
    (l.dropWhile p).dropWhile p = l.dropWhile p := by
  induction l with
  | nil => rfl
  | cons x xs ih =>
    by_cases h : p x
    · rw [List.dropWhile_cons_of_pos h, ih]
    · rw [List.dropWhile_cons_of_neg h, List.dropWhile_cons_of_neg h]

theorem head_dropWhile_false (p : Char → Bool) (l : List Char) (c : Char)
    (h : (l.dropWhile p).head? = some c) : p c = false := by
  induction l with
  | nil => simp at h
  | cons x xs ih =>
    by_cases hx : p x
    · rw [List.dropWhile_cons_of_pos hx] at h
      exact ih h
    · rw [List.dropWhile_cons_of_neg hx] at h
      simp at h
      rw [← h]
      simpa using hx

theorem trimChars_trimChars (l : List Char) :
    trimChars (trimChars l) = trimChars l := by
  set w := Char.isWhitespace with hw
  set A := l.dropWhile w with hA
  set B := A.reverse.dropWhile w with hB
  have hBd : B.dropWhile w = B := by
    rw [hB]
    exact dropWhile_dropWhile w A.reverse
  have hArev : A.reverse = A.reverse.takeWhile w ++ B :=
    (List.takeWhile_append_dropWhile w A.reverse).symm
  have hAeq : A = B.reverse ++ (A.reverse.takeWhile w).reverse := by
    have := congrArg List.reverse hArev
    simpa using this
  have ha : (B.reverse).dropWhile w = B.reverse := by
    cases hBr : B.reverse with
    | nil => simp
    | cons c t =>
      have hhead : A.head? = some c := by
        rw [hAeq, hBr]
        rfl
      have hc : w c = false := by
        apply head_dropWhile_false w l c
        rw [← hA]
        exact hhead
      rw [List.dropWhile_cons_of_neg (by simp [hc])]
  show ((B.reverse.dropWhile w).reverse.dropWhile w).reverse = B.reverse
  rw [ha]
  simp only [List.reverse_reverse]
  rw [hBd]

theorem trimChars_map_toLower (l : List Char) :
    trimChars (l.map Char.toLower) = (trimChars l).map Char.toLower := by
  have hcomp : Char.isWhitespace ∘ Char.toLower = Char.isWhitespace := by
    funext c
    exact toLower_isWhitespace c
  unfold trimChars
  rw [List.dropWhile_map, hcomp, ← List.map_reverse, List.dropWhile_map, hcomp,
    ← List.map_reverse]

theorem normStr_normStr (s : String) : normStr (normStr s) = normStr s := by
  show String.mk ((trimChars ((trimChars s.data).map Char.toLower)).map Char.toLower)
      = String.mk ((trimChars s.data).map Char.toLower)
  rw [trimChars_map_toLower, trimChars_trimChars, List.map_map]
  have : Char.toLower ∘ Char.toLower = Char.toLower := by
    funext c
    exact toLower_toLower c
  rw [this]

theorem normStr_empty : normStr "" = "" := by
  rfl

/-! ## Sorting and selection lemmas -/

theorem insertDesc_perm (m : Movie) (l : List Movie) :
    (insertDesc m l).Perm (m :: l) := by
  induction l with
  | nil => exact List.Perm.refl _
  | cons x xs ih =>
    unfold insertDesc
    by_cases h : sortKey m ≥ sortKey x
    · rw [if_pos h]
    · rw [if_neg h]
      exact (ih.cons x).trans (List.Perm.swap m x xs)

theorem sortDesc_perm (l : List Movie) : (sortDesc l).Perm l := by
  induction l with
  | nil => exact List.Perm.refl _
  | cons x xs ih =>
    unfold sortDesc
    exact (insertDesc_perm x (sortDesc xs)).trans (List.Perm.cons x ih)

theorem mem_sortDesc {x : Movie} {l : List Movie} (h : x ∈ sortDesc l) : x ∈ l :=
  (sortDesc_perm l).mem_iff.mp h

theorem length_sortDesc (l : List Movie) : (sortDesc l).length = l.length :=
  (sortDesc_perm l).length_eq

theorem selectTop_mem {sample : List Movie → ℕ → List Movie} (Hs : SampleOK sample)
    (top_n : ℕ) (c : List Movie) {x : Movie} (hx : x ∈ selectTop sample top_n c) :
    x ∈ c := by
  unfold selectTop at hx
  by_cases h : ((sortDesc c).take 10).length > top_n
  · rw [if_pos h] at hx
    have hmem := (Hs ((sortDesc c).take 10) top_n (Nat.le_of_lt h)).2 x hx
    exact mem_sortDesc (List.mem_of_mem_take hmem)
  · rw [if_neg h] at hx
    exact mem_sortDesc (List.mem_of_mem_take hx)

theorem selectTop_length_le {sample : List Movie → ℕ → List Movie} (Hs : SampleOK sample)
    (top_n : ℕ) (c : List Movie) : (selectTop sample top_n c).length ≤ c.length := by
  unfold selectTop
  by_cases h : ((sortDesc c).take 10).length > top_n
  · rw [if_pos h]
    rw [(Hs ((sortDesc c).take 10) top_n (Nat.le_of_lt h)).1]
    calc top_n ≤ ((sortDesc c).take 10).length := Nat.le_of_lt h
      _ ≤ (sortDesc c).length := by
          rw [List.length_take]
          exact Nat.min_le_right _ _
      _ = c.length := length_sortDesc c
  · rw [if_neg h]
    calc ((sortDesc c).take 10).length ≤ (sortDesc c).length := by
          rw [List.length_take]
          exact Nat.min_le_right _ _
      _ = c.length := length_sortDesc c

/-! ## Stage lemmas -/

theorem mem_filter_go {industryN : String} {gs : List String} {mt : Option String}
    {us : ℕ → ℚ} {movies : List Movie} {i : ℕ} {x : Movie}
    (hx : x ∈ _filter_go industryN gs mt us i movies) :
    ∃ orig ∈ movies, _filter_keep industryN gs mt orig = true ∧
      ∃ q, x = scoredCopy orig q := by
  induction movies generalizing i with
  | nil => simp [_filter_go] at hx
  | cons movie rest ih =>
    unfold _filter_go at hx
    by_cases hk : _filter_keep industryN gs mt movie
    · rw [if_pos hk] at hx
      rcases List.mem_cons.mp hx with h | h
      · exact ⟨movie, List.mem_cons_self movie rest, hk,
          _score_movie movie (us i), h⟩
      · obtain ⟨orig, ho, hko, q, hq⟩ := ih h
        exact ⟨orig, List.mem_cons_of_mem movie ho, hko, q, hq⟩
    · rw [if_neg hk] at hx
      obtain ⟨orig, ho, hko, q, hq⟩ := ih hx
      exact ⟨orig, List.mem_cons_of_mem movie ho, hko, q, hq⟩

theorem length_filter_go_le (industryN : String) (gs : List String) (mt : Option String)
    (us : ℕ → ℚ) (movies : List Movie) (i : ℕ) :
    (_filter_go industryN gs mt us i movies).length ≤ movies.length := by
  induction movies generalizing i with
  | nil => simp [_filter_go]
  | cons movie rest ih =>
    unfold _filter_go
    by_cases hk : _filter_keep industryN gs mt movie
    · rw [if_pos hk]
      simpa using ih (i + 1)
    · rw [if_neg hk]
      exact (ih (i + 1)).trans (Nat.le_succ _)

theorem mem_filter_movies {movies : List Movie} {genres : List String} {industry : String}
    {mt : Option String} {us : ℕ → ℚ} {x : Movie}
    (hx : x ∈ _filter_movies movies genres industry mt us) :
    ∃ orig ∈ movies, _filter_keep (normStr industry) (genres.map normStr) mt orig = true ∧
      ∃ q, x = scoredCopy orig q :=
  mem_filter_go hx

/-- The recursive genre search is an order-preserving genre-containment
filter (the spec's iterative equivalent). -/
theorem recSearchGo_eq_filter (target : String) (l : List Movie) :
    recSearchGo target l =
      l.filter (fun m => decide (normStr target ∈ m.genres.map normStr)) := by
  induction l with
  | nil => rfl
  | cons movie tail ih =>
    unfold recSearchGo
    by_cases h : normStr target ∈ movie.genres.map normStr
    · rw [if_pos h, List.filter_cons_of_pos (by simpa using h), ih]
    · rw [if_neg h, List.filter_cons_of_neg (by simpa using h), ih]

theorem mem_recursive_genre_search {movies : List Movie} {target : String} {x : Movie}
    (hx : x ∈ _recursive_genre_search movies target) : x ∈ movies := by
  unfold _recursive_genre_search at hx
  rw [List.drop_zero, recSearchGo_eq_filter] at hx
  exact List.mem_of_mem_filter hx

theorem length_recursive_genre_search_le (movies : List Movie) (target : String) :
    (_recursive_genre_search movies target).length ≤ movies.length := by
  unfold _recursive_genre_search
  rw [recSearchGo_eq_filter]
  simpa using List.length_filter_le _ movies

theorem mem_stage3 {movies : List Movie} {target : String} {us : ℕ → ℚ} {x : Movie}
    (hx : x ∈ stage3_scored movies target us) :
    ∃ orig ∈ movies, ∃ q, x = scoredCopy orig q := by
  unfold stage3_scored at hx
  obtain ⟨p, hp, hpx⟩ := List.mem_map.mp hx
  refine ⟨p.2, ?_, _score_movie p.2 (us p.1), hpx.symm⟩
  have h2 : p.2 ∈ (_recursive_genre_search movies target).enum.map Prod.snd :=
    List.mem_map.mpr ⟨p, hp, rfl⟩
  rw [List.enum_map_snd] at h2
  exact mem_recursive_genre_search h2

theorem length_stage3_le (movies : List Movie) (target : String) (us : ℕ → ℚ) :
    (stage3_scored movies target us).length ≤ movies.length := by
  unfold stage3_scored
  rw [List.length_map, List.enum_length]
  exact length_recursive_genre_search_le movies target

theorem mem_stage4 {movies : List Movie} {us : ℕ → ℚ} {x : Movie}
    (hx : x ∈ stage4_scored movies us) :
    ∃ orig ∈ movies, ∃ q, x = scoredCopy orig q := by
  unfold stage4_scored at hx
  obtain ⟨p, hp, hpx⟩ := List.mem_map.mp hx
  refine ⟨p.2, ?_, _score_movie p.2 (us p.1), hpx.symm⟩
  have h2 : p.2 ∈ movies.enum.map Prod.snd := List.mem_map.mpr ⟨p, hp, rfl⟩
  rw [List.enum_map_snd] at h2
  exact h2

theorem length_stage4 (movies : List Movie) (us : ℕ → ℚ) :
    (stage4_scored movies us).length = movies.length := by
  unfold stage4_scored
  rw [List.length_map, List.enum_length]

theorem fallback_eq_or (a b : List Movie) : fallback a b = a ∨ fallback a b = b := by
  unfold fallback
  by_cases h : a.isEmpty
  · rw [if_pos h]
    exact Or.inr rfl
  · rw [if_neg h]
    exact Or.inl rfl

theorem fallback_of_nonempty {a : List Movie} (b : List Movie) (h : a ≠ []) :
    fallback a b = a := by
  unfold fallback
  rw [if_neg (by simpa using h)]

theorem fallback_of_empty {a : List Movie} (b : List Movie) (h : a = []) :
    fallback a b = b := by
  unfold fallback
  rw [if_pos (by simpa using h)]

theorem mem_cascade {movies : List Movie} {norm_ind norm_gen : String}
    {mt : Option String} {us1 us2 us3 us4 : ℕ → ℚ} {x : Movie}
    (hx : x ∈ cascade movies norm_ind norm_gen mt us1 us2 us3 us4) :
    ∃ orig ∈ movies, ∃ q, x = scoredCopy orig q := by
  unfold cascade at hx
  rcases fallback_eq_or (fallback (fallback
      (_filter_movies movies [norm_gen] norm_ind mt us1)
      (_filter_movies movies [norm_gen] norm_ind none us2))
      (stage3_scored movies norm_gen us3)) (stage4_scored movies us4) with h | h
  · rw [h] at hx
    rcases fallback_eq_or (fallback
        (_filter_movies movies [norm_gen] norm_ind mt us1)
        (_filter_movies movies [norm_gen] norm_ind none us2))
        (stage3_scored movies norm_gen us3) with h2 | h2
    · rw [h2] at hx
      rcases fallback_eq_or (_filter_movies movies [norm_gen] norm_ind mt us1)
          (_filter_movies movies [norm_gen] norm_ind none us2) with h3 | h3
      · rw [h3] at hx
        obtain ⟨orig, ho, _, hq⟩ := mem_filter_movies hx
        exact ⟨orig, ho, hq⟩
      · rw [h3] at hx
        obtain ⟨orig, ho, _, hq⟩ := mem_filter_movies hx
        exact ⟨orig, ho, hq⟩
    · rw [h2] at hx
      exact mem_stage3 hx
  · rw [h] at hx
    exact mem_stage4 hx

theorem length_cascade_le (movies : List Movie) (norm_ind norm_gen : String)
    (mt : Option String) (us1 us2 us3 us4 : ℕ → ℚ) :
    (cascade movies norm_ind norm_gen mt us1 us2 us3 us4).length ≤ movies.length := by
  unfold cascade
  rcases fallback_eq_or (fallback (fallback
      (_filter_movies movies [norm_gen] norm_ind mt us1)
      (_filter_movies movies [norm_gen] norm_ind none us2))
      (stage3_scored movies norm_gen us3)) (stage4_scored movies us4) with h | h
  · rw [h]
    rcases fallback_eq_or (fallback
        (_filter_movies movies [norm_gen] norm_ind mt us1)
        (_filter_movies movies [norm_gen] norm_ind none us2))
        (stage3_scored movies norm_gen us3) with h2 | h2
    · rw [h2]
      rcases fallback_eq_or (_filter_movies movies [norm_gen] norm_ind mt us1)
          (_filter_movies movies [norm_gen] norm_ind none us2) with h3 | h3
      · rw [h3]
        exact length_filter_go_le _ _ _ _ _ _
      · rw [h3]
        exact length_filter_go_le _ _ _ _ _ _
    · rw [h2]
      exact length_stage3_le movies norm_gen us3
  · rw [h]
    exact (length_stage4 movies us4).le

/-- Re-normalizing an already-normalized query argument changes nothing (the
code normalizes in `recommend` and again inside `_filter_movies`). -/
theorem norm_normalize (x : Option String) :
    normStr (_normalize_string x) = _normalize_string x := by
  cases x with
  | none => exact normStr_empty
  | some s => exact normStr_normStr s

/-! ## Title extraction (`{m["title"] for m in selected_movies}`) -/

theorem mapM_title_nil : ([] : List Movie).mapM Movie.title = some [] := rfl

theorem mapM_title_cons (mv : Movie) (l : List Movie) :
    (mv :: l).mapM Movie.title =
      mv.title.bind (fun ti => (l.mapM Movie.title).map (fun ts => ti :: ts)) := by
  rw [List.mapM_cons]
  cases mv.title with
  | none => rfl
  | some ti =>
    cases hl : l.mapM Movie.title with
    | none => rfl
    | some ts => rfl

theorem mapM_title_isSome {l : List Movie} (h : ∀ mv ∈ l, mv.title ≠ none) :
    ∃ ts, l.mapM Movie.title = some ts := by
  induction l with
  | nil => exact ⟨[], rfl⟩
  | cons mv rest ih =>
    obtain ⟨ts, hts⟩ := ih (fun x hx => h x (List.mem_cons_of_mem mv hx))
    cases hm : mv.title with
    | none => exact absurd hm (h mv (List.mem_cons_self mv rest))
    | some ti =>
      refine ⟨ti :: ts, ?_⟩
      rw [mapM_title_cons, hm, hts]
      rfl

theorem mem_mapM_title {l : List Movie} {ts : List String}
    (h : l.mapM Movie.title = some ts) (ti : String) :
    ti ∈ ts ↔ ∃ mv ∈ l, mv.title = some ti := by
  induction l generalizing ts with
  | nil =>
    rw [mapM_title_nil] at h
    cases h
    simp
  | cons mv rest ih =>
    rw [mapM_title_cons] at h
    cases hm : mv.title with
    | none =>
      rw [hm] at h
      cases h
    | some tj =>
      rw [hm] at h
      cases hrest : rest.mapM Movie.title with
      | none =>
        rw [hrest] at h
        cases h
      | some ts2 =>
        rw [hrest] at h
        have heq : tj :: ts2 = ts := by
          simpa using h
        subst heq
        rw [List.mem_cons]
        constructor
        · rintro (rfl | hmem)
          · exact ⟨mv, List.mem_cons_self mv rest, hm⟩
          · obtain ⟨x, hx, hxt⟩ := (ih hrest).mp hmem
            exact ⟨x, List.mem_cons_of_mem mv hx, hxt⟩
        · rintro ⟨x, hx, hxt⟩
          rcases List.mem_cons.mp hx with rfl | hx2
          · rw [hm] at hxt
            exact Or.inl (by cases hxt; rfl)
          · exact Or.inr ((ih hrest).mpr ⟨x, hx2, hxt⟩)

/-! ## Elimination lemmas for `_log_history_full` and `recommend` -/

theorem log_history_ok_elim {st : RecState} {ind gen : String} {mt : Option String}
    {sel : List Movie} {t : String} {st' : RecState}
    (h : _log_history_full st ind gen mt sel t = .ok st') :
    ∃ ts, sel.mapM Movie.title = some ts ∧
      st' = { movies := st.movies.map (popUpdate ts),
              history := st.history ++ [mkEntry ind gen mt sel t],
              ratings := st.ratings } := by
  unfold _log_history_full at h
  cases hts : sel.mapM Movie.title with
  | none =>
    rw [hts] at h
    cases h
  | some ts =>
    rw [hts] at h
    refine ⟨ts, rfl, ?_⟩
    cases h
    rfl

theorem log_history_error_elim {st : RecState} {ind gen : String} {mt : Option String}
    {sel : List Movie} {t : String} {st' : RecState}
    (h : _log_history_full st ind gen mt sel t = .error st') :
    sel.mapM Movie.title = none ∧
      st' = { st with history := st.history ++ [mkEntry ind gen mt sel t] } := by
  unfold _log_history_full at h
  cases hts : sel.mapM Movie.title with
  | none =>
    rw [hts] at h
    refine ⟨rfl, ?_⟩
    cases h
    rfl
  | some ts =>
    rw [hts] at h
    cases h

theorem recommend_ok_elim {st : RecState} {industry genre movie_type : Option String}
    {top_n : ℕ} {us1 us2 us3 us4 : ℕ → ℚ} {sample : List Movie → ℕ → List Movie}
    {t : String} {sel : List Movie} {st' : RecState}
    (h : recommend st industry genre movie_type top_n us1 us2 us3 us4 sample t
      = .ok (sel, st')) :
    sel = selectTop sample top_n (cascade st.movies (_normalize_string industry)
        (_normalize_string genre) movie_type us1 us2 us3 us4) ∧
      _log_history_full st (_normalize_string industry) (_normalize_string genre)
        movie_type sel t = .ok st' := by
  unfold recommend recommendFinish at h
  cases hl : _log_history_full st (_normalize_string industry) (_normalize_string genre)
      movie_type (selectTop sample top_n (cascade st.movies (_normalize_string industry)
        (_normalize_string genre) movie_type us1 us2 us3 us4)) t with
  | error s =>
    rw [hl] at h
    cases h
  | ok s =>
    rw [hl] at h
    cases h
    exact ⟨rfl, hl⟩

/-! ## Characterization of the strict filter test -/

theorem filter_keep_true_elim {industryN : String} {gs : List String} {mt : Option String}
    {movie : Movie} (h : _filter_keep industryN gs mt movie = true) :
    (industryN ≠ "" → industryN = normStr (movie.industry.getD "")) ∧
    (∀ g ∈ gs, g ∈ movie.genres.map normStr) ∧
    (movieTypeTruthy mt = true → _matches_type movie mt = true) := by
  unfold _filter_keep at h
  by_cases h1 : (decide (industryN ≠ "") &&
      decide (industryN ≠ normStr (movie.industry.getD ""))) = true
  · rw [if_pos h1] at h
    exact absurd h (by simp)
  · rw [if_neg h1] at h
    by_cases h2 : (!(gs.isEmpty) &&
        !(gs.all fun g => (movie.genres.map normStr).contains g)) = true
    · rw [if_pos h2] at h
      exact absurd h (by simp)
    · rw [if_neg h2] at h
      by_cases h3 : (movieTypeTruthy mt && !(_matches_type movie mt)) = true
      · rw [if_pos h3] at h
        exact absurd h (by simp)
      · refine ⟨?_, ?_, ?_⟩
        · intro hne
          simp only [Bool.and_eq_true, decide_eq_true_eq, not_and] at h1
          by_contra hne2
          exact (h1 hne) hne2
        · intro g hg
          simp only [Bool.and_eq_true, Bool.not_eq_true'] at h2
          push_neg at h2
          cases hgs : gs with
          | nil =>
            rw [hgs] at hg
            cases hg
          | cons g0 grest =>
            have hall : (gs.all fun g => (movie.genres.map normStr).contains g) = true := by
              have hne : gs.isEmpty = false := by
                rw [hgs]
                rfl
              have := h2 hne
              cases hv : (gs.all fun g => (movie.genres.map normStr).contains g) with
              | false => exact absurd hv this
              | true => rfl
            have := List.all_eq_true.mp hall g hg
            simpa [List.contains, List.elem_eq_mem] using this
        · intro htr
          simp only [Bool.and_eq_true, Bool.not_eq_true'] at h3
          push_neg at h3
          have := h3 htr
          cases hv : _matches_type movie mt with
          | false => exact absurd hv this
          | true => rfl

/-! ## C1: rate_movie validation -/

theorem rate_movie_eq_of_val {stars : StarsVal} {v : ℚ} (hv : stars.val? = some v)
    (title : Option String) (ratings : List RatingEntry) (t : String) :
    rate_movie title stars ratings t =
      if v < 1 ∨ v > 5 then some (false, ratings)
      else
        match title with
        | none => none
        | some s =>
          some (true, ratings ++
            [{ title := String.mk (trimChars s.data), stars := stars, time := t }]) := by
  unfold rate_movie
  rw [hv]

/-- C1 counterexample: stars = 5/2 is not an integer (denominator 2), and not
an integer in 1..5, yet `rate_movie` appends the entry and reports success
instead of failing: the code only checks `stars < 1 or stars > 5`. -/
theorem rate_movie_nonint_accepted_cex :
    (mkRat 5 2).den ≠ 1 ∧
    rate_movie (some "A") (StarsVal.float (mkRat 5 2)) [] "t2" =
      some (true, [{ title := "A", stars := StarsVal.float (mkRat 5 2), time := "t2" }]) := by
  constructor
  · decide
  · decide

/-- C1 (amended): `rate_movie` returns False and leaves the ratings log
unchanged exactly when the numeric stars value is < 1 or > 5 — integrality is
not checked, so any numeric stars in [1, 5] (integer or not) is accepted,
appended as {stripped title, stars, timestamp}, and reported a success; a
non-numeric stars raises (`stars < 1` is a TypeError), and a non-string title
with in-range stars raises on `title.strip()`. -/
theorem rate_movie_spec (title : String) (stars : StarsVal) (v : ℚ)
    (ratings : List RatingEntry) (t : String) (hv : stars.val? = some v) :
    ((v < 1 ∨ v > 5) → rate_movie (some title) stars ratings t = some (false, ratings)) ∧
    ((1 ≤ v ∧ v ≤ 5) → rate_movie (some title) stars ratings t =
      some (true, ratings ++
        [{ title := String.mk (trimChars title.data), stars := stars, time := t }])) ∧
    ((1 ≤ v ∧ v ≤ 5) → rate_movie none stars ratings t = none) ∧
    rate_movie (some title) StarsVal.nonNum ratings t = none := by
  have hnot : (1 ≤ v ∧ v ≤ 5) → ¬(v < 1 ∨ v > 5) := by
    intro h
    push_neg
    exact ⟨h.1, h.2⟩
  refine ⟨?_, ?_, ?_, rfl⟩
  · intro h
    rw [rate_movie_eq_of_val hv, if_pos h]
  · intro h
    rw [rate_movie_eq_of_val hv, if_neg (hnot h)]
  · intro h
    rw [rate_movie_eq_of_val hv, if_neg (hnot h)]

/-- C1 witness: an integer rating 3 on title " A " is accepted, stripped and
appended. -/
theorem rate_movie_spec_witness :
    rate_movie (some " A ") (StarsVal.int 3) [] "t1" =
      some (true, [{ title := "A", stars := StarsVal.int 3, time := "t1" }]) := by
  have h := (rate_movie_spec " A " (StarsVal.int 3) ((3 : ℤ) : ℚ) [] "t1" rfl).2.1
    ⟨by norm_num, by norm_num⟩
  exact h.trans (by decide)

/-! ## C7: the recursive genre search is a linear filter -/

/-- C7: `_recursive_genre_search` from index 0 returns exactly the iterative,
order-preserving linear filter keeping a movie iff the normalized target
genre is among its normalized genres. -/
theorem recursive_genre_search_eq_linear (movies : List Movie) (target : String) :
    _recursive_genre_search movies target = genreLinearFilter movies target := by
  unfold _recursive_genre_search genreLinearFilter
  rw [List.drop_zero]
  exact recSearchGo_eq_filter target movies

/-! ## C8: the movie-type classifier table -/

/-- C8: `_matches_type` implements the spec table: "top rated" ⇒ rating ≥ 8;
"popular" ⇒ popularity ≥ 8; "underrated" ⇒ rating ≥ 7 and popularity ≤ 6;
"new release" ⇒ year ≥ 2020; "classic" ⇒ year ≤ 2005; a normalized label
starting with "short movie" ⇒ duration < 120; anything else (or an empty
label) ⇒ always true — with the labels normalized (trimmed, lowercased)
before comparison and the documented field defaults. -/
theorem matches_type_table (movie : Movie) (label : Option String) :
    (_normalize_string label = "top rated" →
      _matches_type movie label = decide (movie.rating.getD 7 ≥ 8)) ∧
    (_normalize_string label = "popular" →
      _matches_type movie label = decide (movie.popularity.getD 5 ≥ 8)) ∧
    (_normalize_string label = "underrated" →
      _matches_type movie label =
        (decide (movie.rating.getD 7 ≥ 7) && decide (movie.popularity.getD 5 ≤ 6))) ∧
    (_normalize_string label = "new release" →
      _matches_type movie label = decide (movie.year.getD 2010 ≥ 2020)) ∧
    (_normalize_string label = "classic" →
      _matches_type movie label = decide (movie.year.getD 2010 ≤ 2005)) ∧
    (startsWithChars (_normalize_string label) "short movie" = true →
      _matches_type movie label = decide (movie.duration_minutes.getD 120 < 120)) ∧
    (_normalize_string label ∉
        (["top rated", "popular", "underrated", "new release", "classic"] : List String) →
      startsWithChars (_normalize_string label) "short movie" = false →
      _matches_type movie label = true) := by
  refine ⟨?_, ?_, ?_, ?_, ?_, ?_, ?_⟩
  · intro h
    simp [_matches_type, h]
  · intro h
    simp [_matches_type, h]
  · intro h
    simp [_matches_type, h]
  · intro h
    simp [_matches_type, h]
  · intro h
    simp [_matches_type, h]
  · intro h
    have h1 : _normalize_string label ≠ "top rated" := by
      intro he
      rw [he] at h
      exact absurd h (by decide)
    have h2 : _normalize_string label ≠ "popular" := by
      intro he
      rw [he] at h
      exact absurd h (by decide)
    have h3 : _normalize_string label ≠ "underrated" := by
      intro he
      rw [he] at h
      exact absurd h (by decide)
    have h4 : _normalize_string label ≠ "new release" := by
      intro he
      rw [he] at h
      exact absurd h (by decide)
    have h5 : _normalize_string label ≠ "classic" := by
      intro he
      rw [he] at h
      exact absurd h (by decide)
    simp [_matches_type, h, h1, h2, h3, h4, h5]
  · intro hmem hsw
    simp only [List.mem_cons, List.not_mem_nil, or_false, not_or] at hmem
    obtain ⟨h1, h2, h3, h4, h5⟩ := hmem
    simp [_matches_type, h1, h2, h3, h4, h5, hsw]

/-- C8 witness: the "Top Rated" label (mixed case) classifies by
rating ≥ 8 on a movie with every field missing. -/
theorem matches_type_table_witness :
    _matches_type blankMovie (some "Top Rated") = decide (blankMovie.rating.getD 7 ≥ 8) :=
  (matches_type_table blankMovie (some "Top Rated")).1 (by decide)

/-! ## C5, C6, C10: history and popularity bookkeeping -/

theorem mapM_title_all_isSome {l : List Movie} {ts : List String}
    (h : l.mapM Movie.title = some ts) : ∀ mv ∈ l, mv.title ≠ none := by
  induction l generalizing ts with
  | nil => intro mv hmv; cases hmv
  | cons m rest ih =>
    rw [mapM_title_cons] at h
    cases hm : m.title with
    | none =>
      rw [hm] at h
      cases h
    | some tj =>
      rw [hm] at h
      cases hrest : rest.mapM Movie.title with
      | none =>
        rw [hrest] at h
        cases h
      | some ts2 =>
        intro mv hmv
        rcases List.mem_cons.mp hmv with rfl | hmem
        · rw [hm]
          exact fun he => by cases he
        · exact ih hrest mv hmem

theorem mem_contains_string {a : String} {l : List String} :
    l.contains a = true ↔ a ∈ l := by
  simp [List.contains, List.elem_eq_mem]

theorem popUpdate_score (ts : List String) (movie : Movie) :
    (popUpdate ts movie).score = movie.score := by
  cases htv : movie.title with
  | none => simp [popUpdate, htv]
  | some ti =>
    by_cases h : ti ∈ ts
    · simp [popUpdate, htv, h]
    · simp [popUpdate, htv, h]

/-- The shared concrete run for the bookkeeping witnesses:
`recommend st3 "" "drama" None 5` selects the scored copy of `mvA` via
stage 1 and updates the state accordingly. -/
theorem recommend_st3_eq :
    recommend st3 (some "") (some "drama") none 5 u0 u0 u0 u0 sampleTake "t0" =
      .ok (selA, st3After) := rfl

/-- C5: after a completed `recommend` call returning `sel`, the catalogs
before and after correspond pointwise: a catalog movie whose title appears
among the titles in `sel` has exactly its popularity incremented by 1 (on the
documented default 5 when the key is missing), and a catalog movie whose
title does not appear in `sel` is unchanged.  With unique titles (the claim's
hypothesis) title membership coincides with membership of the movie itself in
the selection. -/
theorem recommend_popularity_feedback (st : RecState)
    (industry genre movie_type : Option String) (top_n : ℕ) (us1 us2 us3 us4 : ℕ → ℚ)
    (sample : List Movie → ℕ → List Movie) (t : String) (sel : List Movie) (st' : RecState)
    (_huniq : (st.movies.map Movie.title).Nodup)
    (hok : recommend st industry genre movie_type top_n us1 us2 us3 us4 sample t
      = .ok (sel, st')) :
    List.Forall₂ (fun pre post =>
      (pre.title ∈ sel.map Movie.title →
        post = { pre with popularity := some (pre.popularity.getD 5 + 1) }) ∧
      (pre.title ∉ sel.map Movie.title → post = pre)) st.movies st'.movies := by
  obtain ⟨hsel, hlog⟩ := recommend_ok_elim hok
  obtain ⟨ts, hts, hst⟩ := log_history_ok_elim hlog
  subst hst
  show List.Forall₂ _ st.movies (st.movies.map (popUpdate ts))
  rw [List.forall₂_map_right_iff]
  rw [List.forall₂_same]
  intro mv hmv
  constructor
  · intro hmem
    obtain ⟨mv2, hmv2, htitle⟩ := List.mem_map.mp hmem
    have hns : mv2.title ≠ none := mapM_title_all_isSome hts mv2 hmv2
    cases htv : mv2.title with
    | none => exact absurd htv hns
    | some ti =>
      rw [htv] at htitle
      have hmt : mv.title = some ti := htitle.symm
      have hin : ti ∈ ts := (mem_mapM_title hts ti).mpr ⟨mv2, hmv2, htv⟩
      simp [popUpdate, hmt, hin]
  · intro hmem
    cases htv : mv.title with
    | none => simp [popUpdate, htv]
    | some ti =>
      have hnin : ti ∉ ts := by
        intro hin
        obtain ⟨mv2, hmv2, htv2⟩ := (mem_mapM_title hts ti).mp hin
        exact hmem (List.mem_map.mpr ⟨mv2, hmv2, htv2.trans htv.symm⟩)
      simp [popUpdate, htv, hnin]

/-- C5 witness: on the 3-movie catalog, only `mvA` (whose title is in the
selection) gains popularity 5 → 6; `mvB`, `mvC` are untouched. -/
theorem recommend_popularity_feedback_witness :
    List.Forall₂ (fun pre post =>
      (pre.title ∈ selA.map Movie.title →
        post = { pre with popularity := some (pre.popularity.getD 5 + 1) }) ∧
      (pre.title ∉ selA.map Movie.title → post = pre)) st3.movies st3After.movies :=
  recommend_popularity_feedback st3 (some "") (some "drama") none 5 u0 u0 u0 u0
    sampleTake "t0" selA st3After (by decide) recommend_st3_eq

/-- C6: a completed `recommend` call appends exactly one entry to the history
log, and that entry's `recommended` list is exactly the returned list, in
order. -/
theorem recommend_history_one_entry (st : RecState)
    (industry genre movie_type : Option String) (top_n : ℕ) (us1 us2 us3 us4 : ℕ → ℚ)
    (sample : List Movie → ℕ → List Movie) (t : String) (sel : List Movie) (st' : RecState)
    (hok : recommend st industry genre movie_type top_n us1 us2 us3 us4 sample t
      = .ok (sel, st')) :
    st'.history = st.history ++
      [mkEntry (_normalize_string industry) (_normalize_string genre) movie_type sel t] ∧
    st'.history.length = st.history.length + 1 := by
  obtain ⟨hsel, hlog⟩ := recommend_ok_elim hok
  obtain ⟨ts, hts, hst⟩ := log_history_ok_elim hlog
  subst hst
  constructor
  · rfl
  · simp

/-- C6 witness: the concrete 3-movie run grows the (empty) history by the one
entry recording the returned selection. -/
theorem recommend_history_one_entry_witness :
    st3After.history = st3.history ++ [mkEntry "" "drama" none selA "t0"] ∧
    st3After.history.length = st3.history.length + 1 :=
  recommend_history_one_entry st3 (some "") (some "drama") none 5 u0 u0 u0 u0
    sampleTake "t0" selA st3After recommend_st3_eq

/-- C10: the records a completed `recommend` call returns are copies of
pre-call catalog records with only a score added (hence they carry the
pre-increment popularity); the post-call catalog entries keep their `score`
field unchanged (they never gain a score key); and the appended history entry
stores exactly these snapshots. -/
theorem recommend_returns_snapshots (st : RecState)
    (industry genre movie_type : Option String) (top_n : ℕ) (us1 us2 us3 us4 : ℕ → ℚ)
    (sample : List Movie → ℕ → List Movie) (t : String) (sel : List Movie) (st' : RecState)
    (Hs : SampleOK sample)
    (hok : recommend st industry genre movie_type top_n us1 us2 us3 us4 sample t
      = .ok (sel, st')) :
    (∀ mv ∈ sel, ∃ orig ∈ st.movies, ∃ q : ℚ, mv = scoredCopy orig q) ∧
    List.Forall₂ (fun pre post => post.score = pre.score) st.movies st'.movies ∧
    st'.history.getLast? = some (mkEntry (_normalize_string industry)
      (_normalize_string genre) movie_type sel t) := by
  obtain ⟨hsel, hlog⟩ := recommend_ok_elim hok
  obtain ⟨ts, hts, hst⟩ := log_history_ok_elim hlog
  refine ⟨?_, ?_, ?_⟩
  · intro mv hmv
    rw [hsel] at hmv
    exact mem_cascade (selectTop_mem Hs top_n _ hmv)
  · rw [hst]
    show List.Forall₂ _ st.movies (st.movies.map (popUpdate ts))
    rw [List.forall₂_map_right_iff, List.forall₂_same]
    intro mv _
    exact popUpdate_score ts mv
  · rw [hst]
    show (st.history ++ [mkEntry _ _ _ _ _]).getLast? = _
    rw [List.getLast?_concat]

/-- C10 witness: the concrete 3-movie run logs exactly the returned
pre-increment snapshot of `mvA`. -/
theorem recommend_returns_snapshots_witness :
    st3After.history.getLast? = some (mkEntry "" "drama" none selA "t0") :=
  (recommend_returns_snapshots st3 (some "") (some "drama") none 5 u0 u0 u0 u0
    sampleTake "t0" selA st3After sampleTake_ok recommend_st3_eq).2.2

/-! ## Cascade stage-selection lemmas -/

theorem stage3_scored_nil {movies : List Movie} {target : String} (us : ℕ → ℚ)
    (h : _recursive_genre_search movies target = []) :
    stage3_scored movies target us = [] := by
  unfold stage3_scored
  rw [h]
  rfl

theorem cascade_of_stage1_ne {movies : List Movie} {ni ng : String} {mt : Option String}
    {us1 : ℕ → ℚ} (us2 us3 us4 : ℕ → ℚ)
    (h : _filter_movies movies [ng] ni mt us1 ≠ []) :
    cascade movies ni ng mt us1 us2 us3 us4 = _filter_movies movies [ng] ni mt us1 := by
  unfold cascade
  rw [fallback_of_nonempty _ h, fallback_of_nonempty _ h, fallback_of_nonempty _ h]

theorem cascade_of_stage4 {movies : List Movie} {ni ng : String} {mt : Option String}
    {us1 us2 us3 : ℕ → ℚ} (us4 : ℕ → ℚ)
    (h1 : _filter_movies movies [ng] ni mt us1 = [])
    (h2 : _filter_movies movies [ng] ni none us2 = [])
    (h3 : _recursive_genre_search movies ng = []) :
    cascade movies ni ng mt us1 us2 us3 us4 = stage4_scored movies us4 := by
  unfold cascade
  rw [fallback_of_empty _ h1, fallback_of_empty _ h2,
    fallback_of_empty _ (stage3_scored_nil us3 h3)]

/-! ## C2: small catalogs and the result bound -/

/-- C2 counterexample: a 3-movie catalog with top_n = 5 (3 < 5), where the
stage-1 genre filter keeps a single movie: `recommend` returns 1 movie, not
the whole catalog. -/
theorem recommend_small_catalog_cex :
    st3.movies.length = 3 ∧ (3 : ℕ) < 5 ∧
    (okList (recommend st3 (some "") (some "drama") none 5 u0 u0 u0 u0
      sampleTake "t0")).map List.length = some 1 := by
  refine ⟨rfl, by norm_num, by decide⟩

/-- C2 (amended): a completed `recommend` call never returns more movies than
the catalog contains; and when the catalog has at most 10 movies, fewer than
top_n movies, and stages 1–3 all come up empty, the call returns exactly the
whole catalog scored (a permutation of the scored catalog). -/
theorem recommend_small_catalog (st : RecState)
    (industry genre movie_type : Option String) (top_n : ℕ) (us1 us2 us3 us4 : ℕ → ℚ)
    (sample : List Movie → ℕ → List Movie) (t : String) (sel : List Movie) (st' : RecState)
    (Hs : SampleOK sample)
    (hok : recommend st industry genre movie_type top_n us1 us2 us3 us4 sample t
      = .ok (sel, st')) :
    sel.length ≤ st.movies.length ∧
    (st.movies.length ≤ 10 → st.movies.length < top_n →
      _filter_movies st.movies [_normalize_string genre] (_normalize_string industry)
        movie_type us1 = [] →
      _filter_movies st.movies [_normalize_string genre] (_normalize_string industry)
        none us2 = [] →
      _recursive_genre_search st.movies (_normalize_string genre) = [] →
      sel.Perm (stage4_scored st.movies us4)) := by
  obtain ⟨hsel, _⟩ := recommend_ok_elim hok
  constructor
  · rw [hsel]
    exact (selectTop_length_le Hs top_n _).trans (length_cascade_le _ _ _ _ _ _ _ _)
  · intro h10 htop h1 h2 h3
    rw [hsel, cascade_of_stage4 us4 h1 h2 h3]
    unfold selectTop
    have hlen : (sortDesc (stage4_scored st.movies us4)).length = st.movies.length := by
      rw [length_sortDesc, length_stage4]
    have htake : (sortDesc (stage4_scored st.movies us4)).take 10
        = sortDesc (stage4_scored st.movies us4) :=
      List.take_of_length_le (by omega)
    rw [htake, if_neg (by omega)]
    exact sortDesc_perm _

/-- C2 witness: on a 1-movie catalog with a genre matching nothing, the call
returns the scored whole catalog. -/
theorem recommend_stOne_eq :
    recommend stOne (some "") (some "zzz") none 5 u0 u0 u0 u0 sampleTake "t0" =
      .ok (selOne, stOneAfter) := rfl

theorem recommend_small_catalog_witness :
    selOne.Perm (stage4_scored stOne.movies u0) :=
  (recommend_small_catalog stOne (some "") (some "zzz") none 5 u0 u0 u0 u0 sampleTake
    "t0" selOne stOneAfter sampleTake_ok recommend_stOne_eq).2
    (by decide) (by decide) (by decide) (by decide) (by decide)

/-! ## C3: totality and the empty catalog -/

theorem scoredCopy_title (movie : Movie) (q : ℚ) :
    (scoredCopy movie q).title = movie.title := rfl

theorem cascade_nil (ni ng : String) (mt : Option String) (us1 us2 us3 us4 : ℕ → ℚ) :
    cascade [] ni ng mt us1 us2 us3 us4 = [] := rfl

theorem selectTop_nil (sample : List Movie → ℕ → List Movie) (top_n : ℕ) :
    selectTop sample top_n [] = [] := by
  unfold selectTop sortDesc
  simp

theorem popUpdate_nil (movie : Movie) : popUpdate [] movie = movie := by
  cases htv : movie.title with
  | none => simp [popUpdate, htv]
  | some ti => simp [popUpdate, htv]

/-- C3 counterexample: a catalog record with no `"title"` key is selected, so
`_log_history_full` raises `KeyError` on `m["title"]` and `recommend` returns
no list at all — the recommendation path is not exception-free. -/
theorem recommend_missing_title_raises_cex :
    stNoTitle.movies ≠ [] ∧
    okList (recommend stNoTitle (some "") (some "drama") none 5 u0 u0 u0 u0
      sampleTake "t0") = none := by
  refine ⟨by decide, by decide⟩

/-- C3 (amended): provided every catalog movie has a title (the `m["title"]`
lookup in `_log_history_full` is the only raising step, and it only sees
selected movies), `recommend` always returns a list; and on the empty catalog
it returns the empty list, still appends a history entry with an empty
`recommended`, and leaves the (empty) catalog without any popularity
update. -/
theorem recommend_total_and_empty_catalog (st : RecState)
    (industry genre movie_type : Option String) (top_n : ℕ) (us1 us2 us3 us4 : ℕ → ℚ)
    (sample : List Movie → ℕ → List Movie) (t : String)
    (Hs : SampleOK sample) (htitles : ∀ mv ∈ st.movies, mv.title ≠ none) :
    (∃ sel st', recommend st industry genre movie_type top_n us1 us2 us3 us4 sample t
      = .ok (sel, st')) ∧
    (st.movies = [] →
      recommend st industry genre movie_type top_n us1 us2 us3 us4 sample t =
        .ok ([],
          { movies := [],
            history := st.history ++ [mkEntry (_normalize_string industry)
              (_normalize_string genre) movie_type [] t],
            ratings := st.ratings })) := by
  constructor
  · have hall : ∀ mv ∈ selectTop sample top_n (cascade st.movies
        (_normalize_string industry) (_normalize_string genre) movie_type
        us1 us2 us3 us4), mv.title ≠ none := by
      intro mv hmv
      obtain ⟨orig, ho, q, hq⟩ := mem_cascade (selectTop_mem Hs top_n _ hmv)
      rw [hq, scoredCopy_title]
      exact htitles orig ho
    obtain ⟨ts, hts⟩ := mapM_title_isSome hall
    cases hr : recommend st industry genre movie_type top_n us1 us2 us3 us4 sample t with
    | ok p =>
      obtain ⟨sel, st2⟩ := p
      exact ⟨sel, st2, rfl⟩
    | error s =>
      exfalso
      unfold recommend recommendFinish at hr
      cases hl : _log_history_full st (_normalize_string industry)
          (_normalize_string genre) movie_type (selectTop sample top_n
            (cascade st.movies (_normalize_string industry) (_normalize_string genre)
              movie_type us1 us2 us3 us4)) t with
      | ok s2 =>
        rw [hl] at hr
        cases hr
      | error s2 =>
        obtain ⟨hnone, _⟩ := log_history_error_elim hl
        rw [hts] at hnone
        cases hnone
  · intro hnil
    obtain ⟨movies, history, ratings⟩ := st
    simp only at hnil
    subst hnil
    unfold recommend recommendFinish
    rw [show (RecState.mk [] history ratings).movies = [] from rfl,
      cascade_nil, selectTop_nil]
    rfl

/-- C3 witness: the empty-catalog run returns the empty list, logs one entry
with empty `recommended`, and performs no popularity update. -/
theorem recommend_total_and_empty_catalog_witness :
    recommend stEmpty (some "x") (some "y") (some "classic") 7 u0 u0 u0 u0
      sampleTake "tE" =
      .ok ([],
        { movies := [],
          history := [] ++ [mkEntry "x" "y" (some "classic") [] "tE"],
          ratings := [] }) :=
  (recommend_total_and_empty_catalog stEmpty (some "x") (some "y") (some "classic") 7
    u0 u0 u0 u0 sampleTake "tE" sampleTake_ok
    (by intro mv hmv; simp [stEmpty] at hmv)).2 rfl

/-! ## C4: soundness of the strict stage -/

theorem matches_type_scoredCopy (movie : Movie) (q : ℚ) (mt : Option String) :
    _matches_type (scoredCopy movie q) mt = _matches_type movie mt := rfl

theorem matches_type_falsy {mt : Option String} (h : movieTypeTruthy mt = false)
    (movie : Movie) : _matches_type movie mt = true := by
  cases mt with
  | none => rfl
  | some s =>
    have hs : s = "" := by
      simpa [movieTypeTruthy] using h
    subst hs
    rfl

/-- C4 counterexample: with a query industry that normalizes to "", stage 1
still yields the Bollywood movie, but the returned movie's normalized
industry ("bollywood") is not equal to the normalized query industry (""):
the industry condition is skipped, not enforced, for falsy industries. -/
theorem recommend_strict_stage_industry_cex :
    _filter_movies stBolly.movies [_normalize_string (some "drama")]
      (_normalize_string (some "")) none u0 ≠ [] ∧
    (okList (recommend stBolly (some "") (some "drama") none 5 u0 u0 u0 u0
      sampleTake "t0")).map (List.map (fun mv => normStr (mv.industry.getD "")))
      = some ["bollywood"] ∧
    _normalize_string (some "") = "" ∧ ("bollywood" : String) ≠ "" := by
  refine ⟨by decide, by decide, rfl, by decide⟩

/-- C4 (amended): if stage 1 yields at least one candidate, every movie the
call returns satisfies the strict conditions as the code enforces them:
whenever the normalized query industry is non-empty, the movie's normalized
industry equals it; the normalized query genre is among the movie's
normalized genres; and the movie-type predicate holds for the movie. -/
theorem recommend_strict_stage_sound (st : RecState)
    (industry genre movie_type : Option String) (top_n : ℕ) (us1 us2 us3 us4 : ℕ → ℚ)
    (sample : List Movie → ℕ → List Movie) (t : String) (sel : List Movie) (st' : RecState)
    (Hs : SampleOK sample)
    (h1 : _filter_movies st.movies [_normalize_string genre] (_normalize_string industry)
      movie_type us1 ≠ [])
    (hok : recommend st industry genre movie_type top_n us1 us2 us3 us4 sample t
      = .ok (sel, st')) :
    ∀ mv ∈ sel,
      (_normalize_string industry ≠ "" →
        normStr (mv.industry.getD "") = _normalize_string industry) ∧
      _normalize_string genre ∈ mv.genres.map normStr ∧
      _matches_type mv movie_type = true := by
  obtain ⟨hsel, _⟩ := recommend_ok_elim hok
  intro mv hmv
  rw [hsel, cascade_of_stage1_ne us2 us3 us4 h1] at hmv
  obtain ⟨orig, ho, hkeep, q, hq⟩ := mem_filter_movies (selectTop_mem Hs top_n _ hmv)
  obtain ⟨hind, hgen, htype⟩ := filter_keep_true_elim hkeep
  rw [norm_normalize] at hind
  subst hq
  refine ⟨?_, ?_, ?_⟩
  · intro hne
    show normStr (orig.industry.getD "") = _normalize_string industry
    exact (hind hne).symm
  · show _normalize_string genre ∈ orig.genres.map normStr
    have := hgen (normStr (_normalize_string genre)) (by simp)
    rwa [norm_normalize] at this
  · rw [matches_type_scoredCopy]
    cases htr : movieTypeTruthy movie_type with
    | false => exact matches_type_falsy htr orig
    | true => exact htype htr

/-- A concrete stage-1 run with a non-empty industry constraint. -/
theorem recommend_stBolly_eq :
    recommend stBolly (some "Bollywood") (some "drama") none 5 u0 u0 u0 u0
      sampleTake "t0" = .ok (selBolly, stBollyAfter) := rfl

/-- C4 witness: the returned stage-1 movie matches the non-empty query
industry and contains the query genre. -/
theorem recommend_strict_stage_sound_witness :
    normStr ((scoredCopy mvBolly (_score_movie mvBolly (u0 0))).industry.getD "")
      = _normalize_string (some "Bollywood") ∧
    _normalize_string (some "drama") ∈
      (scoredCopy mvBolly (_score_movie mvBolly (u0 0))).genres.map normStr := by
  have h := recommend_strict_stage_sound stBolly (some "Bollywood") (some "drama") none 5
    u0 u0 u0 u0 sampleTake "t0" selBolly stBollyAfter sampleTake_ok (by decide)
    recommend_stBolly_eq (scoredCopy mvBolly (_score_movie mvBolly (u0 0)))
    (List.mem_singleton.mpr rfl)
  exact ⟨h.1 (by decide), h.2.1⟩

/-! ## C9: empty-normalizing genre vs empty-normalizing industry -/

theorem filter_go_nil_of_missing_genre {industryN : String} {gs : List String}
    {mt : Option String} {us : ℕ → ℚ} {movies : List Movie} {g : String} (hg : g ∈ gs)
    (h : ∀ mv ∈ movies, g ∉ mv.genres.map normStr) :
    ∀ i, _filter_go industryN gs mt us i movies = [] := by
  induction movies with
  | nil => intro i; rfl
  | cons mv rest ih =>
    intro i
    have hk : _filter_keep industryN gs mt mv ≠ true := by
      intro hkv
      exact (h mv (List.mem_cons_self mv rest)) ((filter_keep_true_elim hkv).2.1 g hg)
    unfold _filter_go
    rw [if_neg hk]
    exact ih (fun mv2 hmv2 => h mv2 (List.mem_cons_of_mem mv hmv2)) (i + 1)

theorem recursive_nil_of_missing_genre {movies : List Movie} {target : String}
    (h : ∀ mv ∈ movies, normStr target ∉ mv.genres.map normStr) :
    _recursive_genre_search movies target = [] := by
  unfold _recursive_genre_search
  rw [List.drop_zero, recSearchGo_eq_filter, List.filter_eq_nil_iff]
  intro mv hmv
  simpa using h mv hmv

theorem filter_go_no_industry_eq (gs : List String) (mt : Option String) (us : ℕ → ℚ) :
    ∀ (movies : List Movie) (i : ℕ),
      _filter_go "" gs mt us i movies = filter_no_industry_go gs mt us i movies := by
  intro movies
  induction movies with
  | nil => intro i; rfl
  | cons mv rest ih =>
    intro i
    unfold _filter_go filter_no_industry_go
    have hk : _filter_keep "" gs mt mv = keep_no_industry gs mt mv := rfl
    rw [hk]
    by_cases h2 : keep_no_industry gs mt mv
    · rw [if_pos h2, if_pos h2, ih]
    · rw [if_neg h2, if_neg h2, ih]

/-- C9: (a) when the query genre normalizes to "" and no catalog movie has a
genre normalizing to "", stages 1–3 all come up empty (the empty string is
still required to be a member of each movie's normalized genre list), so the
call falls through to scoring the whole catalog at stage 4, with the industry
and movie-type constraints no longer influencing the selection; (b) by
contrast, a query industry that normalizes to "" merely disables the industry
condition inside the stage-1/2 filter. -/
theorem empty_genre_vs_empty_industry :
    (∀ (st : RecState) (industry genre movie_type : Option String) (top_n : ℕ)
      (us1 us2 us3 us4 : ℕ → ℚ) (sample : List Movie → ℕ → List Movie) (t : String),
      _normalize_string genre = "" →
      (∀ mv ∈ st.movies, "" ∉ mv.genres.map normStr) →
      _filter_movies st.movies [_normalize_string genre] (_normalize_string industry)
        movie_type us1 = [] ∧
      _filter_movies st.movies [_normalize_string genre] (_normalize_string industry)
        none us2 = [] ∧
      _recursive_genre_search st.movies (_normalize_string genre) = [] ∧
      recommend st industry genre movie_type top_n us1 us2 us3 us4 sample t =
        recommendFinish st (_normalize_string industry) (_normalize_string genre)
          movie_type (selectTop sample top_n (stage4_scored st.movies us4)) t) ∧
    (∀ (movies : List Movie) (genres : List String) (ind : String)
      (movie_type : Option String) (us : ℕ → ℚ),
      normStr ind = "" →
      _filter_movies movies genres ind movie_type us
        = _filter_movies_no_industry movies genres movie_type us) := by
  constructor
  · intro st industry genre movie_type top_n us1 us2 us3 us4 sample t hgen hnone
    have hg : "" ∈ [_normalize_string genre].map normStr := by
      rw [hgen, List.map_singleton, normStr_empty]
      exact List.mem_singleton.mpr rfl
    have h1 : _filter_movies st.movies [_normalize_string genre]
        (_normalize_string industry) movie_type us1 = [] :=
      filter_go_nil_of_missing_genre hg hnone 0
    have h2 : _filter_movies st.movies [_normalize_string genre]
        (_normalize_string industry) none us2 = [] :=
      filter_go_nil_of_missing_genre hg hnone 0
    have h3 : _recursive_genre_search st.movies (_normalize_string genre) = [] := by
      apply recursive_nil_of_missing_genre
      intro mv hmv
      rw [hgen, normStr_empty]
      exact hnone mv hmv
    refine ⟨h1, h2, h3, ?_⟩
    unfold recommend
    rw [cascade_of_stage4 us4 h1 h2 h3]
  · intro movies genres ind movie_type us h
    unfold _filter_movies _filter_movies_no_industry
    rw [h]
    exact filter_go_no_industry_eq (genres.map normStr) movie_type us movies 0

/-- C9 witness: on the 3-movie catalog with genre = None (normalizes to ""),
the call with industry "Hollywood" and type "classic" reduces to the stage-4
whole-catalog selection. -/
theorem empty_genre_vs_empty_industry_witness :
    recommend st3 (some "Hollywood") none (some "classic") 2 u0 u0 u0 u0
      sampleTake "t0" =
      recommendFinish st3 (_normalize_string (some "Hollywood")) (_normalize_string none)
        (some "classic") (selectTop sampleTake 2 (stage4_scored st3.movies u0)) "t0" :=
  (empty_genre_vs_empty_industry.1 st3 (some "Hollywood") none (some "classic") 2
    u0 u0 u0 u0 sampleTake "t0" rfl (by decide)).2.2.2

end MovieRecommender
